import Mathlib

/-!
Verification of the stroke-synchronization core of picto-chat
(`src/main.go`): the point codec, the host message loop
(`HandleConnections`), the joiner connect and receive logic
(`JoinWsServer`), the stroke interpolation in `OnMousePress`, and the
shutdown context built in `OnMPressed`.

Machine `float32` coordinates travel on the wire purely as their 4-byte
little-endian bit patterns, so a coordinate is modelled as the natural
number below `2 ^ 32` holding those bits. Geometric facts about the
interpolator are stated over `ℚ`, the exact-arithmetic reading of the
float computation, with the Euclidean length passed together with its
defining property since square roots are not rational.
-/

namespace PictoChat

/-- A 2D point as carried on the wire (`rl.Vector2` in the source): each
coordinate is the 32-bit pattern of a `float32`, kept as a `Nat` below
`2 ^ 32`. -/
structure Point where
  x : Nat
  y : Nat
deriving DecidableEq, Repr

/-- Little-endian 4-byte layout of one 32-bit word, as
`binary.Write(buf, binary.LittleEndian, ...)` emits one `float32`. -/
def toLE4 (n : Nat) : List Nat :=
  [n % 256, n / 256 % 256, n / 256 ^ 2 % 256, n / 256 ^ 3 % 256]

/-- Little-endian read of one 32-bit word from 4 bytes, as
`binary.Read(..., binary.LittleEndian, ...)` fills one `float32`. -/
def fromLE4 (b0 b1 b2 b3 : Nat) : Nat :=
  b0 + 256 * (b1 + 256 * (b2 + 256 * b3))

/-- The serialization step of `SendDrawingsToWs`:
`binary.Write(buf, binary.LittleEndian, pixels)` writes, for each point in
order, `X` then `Y`, 4 little-endian bytes each — no header, no length
prefix, no terminator. -/
def encode : List Point → List Nat
  | [] => []
  | p :: ps => toLE4 p.x ++ toLE4 p.y ++ encode ps

/-- Reading `count = len(msg) / 8` vectors out of an aligned buffer, as
`binary.Read(bytes.NewReader(msg), binary.LittleEndian, vectors)` does in
`HandleConnections` and `JoinWsServer`. -/
def readPoints : List Nat → List Point
  | b0 :: b1 :: b2 :: b3 :: b4 :: b5 :: b6 :: b7 :: rest =>
      ⟨fromLE4 b0 b1 b2 b3, fromLE4 b4 b5 b6 b7⟩ :: readPoints rest
  | _ => []

/-- The decode step shared by host and joiner: reject a buffer whose
length is not a multiple of `binary.Size(rl.Vector2{}) = 8`
(`len(msg)%elemSize != 0`), otherwise read `len/8` points. -/
def decode (b : List Nat) : Option (List Point) :=
  if b.length % 8 = 0 then some (readPoints b) else none

theorem encode_length (ps : List Point) : (encode ps).length = 8 * ps.length := by
  induction ps with
  | nil => rfl
  | cons p ps ih =>
      simp [encode, toLE4, ih]
      ring

theorem fromLE4_toLE4 (n : Nat) (h : n < 2 ^ 32) :
    fromLE4 (n % 256) (n / 256 % 256) (n / 256 ^ 2 % 256) (n / 256 ^ 3 % 256) = n := by
  simp only [fromLE4, pow_succ, pow_zero, one_mul]
  omega

theorem readPoints_encode (ps : List Point)
    (h : ∀ p ∈ ps, p.x < 2 ^ 32 ∧ p.y < 2 ^ 32) :
    readPoints (encode ps) = ps := by
  induction ps with
  | nil => rfl
  | cons p ps ih =>
      have hp := h p (List.mem_cons_self p ps)
      have hrest : ∀ q ∈ ps, q.x < 2 ^ 32 ∧ q.y < 2 ^ 32 := fun q hq =>
        h q (List.mem_cons_of_mem p hq)
      simp only [encode, toLE4, List.cons_append, List.nil_append, List.append_nil,
        List.append_eq, readPoints, ih hrest, fromLE4_toLE4 p.x hp.1,
        fromLE4_toLE4 p.y hp.2]

/-- Claim C1: for every finite sequence `S` of points (coordinates being
32-bit float patterns), `encode S` is exactly 8 bytes per point,
little-endian, x then y, with no header or terminator, and
`decode (encode S) = S`; in particular the empty sequence encodes to zero
bytes and decodes to zero points. -/
theorem encode_decode_roundtrip (ps : List Point)
    (h : ∀ p ∈ ps, p.x < 2 ^ 32 ∧ p.y < 2 ^ 32) :
    (encode ps).length = 8 * ps.length ∧
    decode (encode ps) = some ps ∧
    encode [] = ([] : List Nat) ∧ decode [] = some ([] : List Point) := by
  refine ⟨encode_length ps, ?_, rfl, rfl⟩
  have hlen : (encode ps).length % 8 = 0 := by
    simp [encode_length, Nat.mul_mod_right]
  simp [decode, hlen, readPoints_encode ps h]

/-- Concrete check of `encode_decode_roundtrip` on a two-point sequence
whose coordinates include the extreme 32-bit pattern. -/
theorem encode_decode_roundtrip_witness :
    (∀ p ∈ [Point.mk 5 4294967295, Point.mk 0 256], p.x < 2 ^ 32 ∧ p.y < 2 ^ 32) ∧
    ((encode [Point.mk 5 4294967295, Point.mk 0 256]).length =
        8 * ([Point.mk 5 4294967295, Point.mk 0 256] : List Point).length ∧
      decode (encode [Point.mk 5 4294967295, Point.mk 0 256]) =
        some [Point.mk 5 4294967295, Point.mk 0 256] ∧
      encode [] = ([] : List Nat) ∧ decode [] = some ([] : List Point)) :=
  ⟨by decide, encode_decode_roundtrip _ (by decide)⟩

/-- A peer connection handle (`*websocket.Conn`), identified by a number. -/
abbrev Conn := Nat

/-- Outcome of one `ReadMessage` call on a connection: a binary message,
or an error (connection dropped). On error gorilla returns a nil slice,
which reads as the empty byte list. -/
inductive ReadResult
  | ok (msg : List Nat)
  | fail
deriving DecidableEq, Repr

/-- State and observable effects after one iteration of the read loop in
`HandleConnections`: the shared drawing buffer (`a.drawnPixels`), the peer
registry (`clients`), the forwards actually written on this iteration,
whether the loop body breaks out of the loop, and whether anything on the
path exits the process. -/
structure HostStepResult where
  drawnPixels : List Point
  clients : List Conn
  writes : List (Conn × List Nat)
  terminated : Bool
  exitsProcess : Bool
deriving DecidableEq, Repr

/-- The relay loop of `HandleConnections`:
`for client := range clients { if err := client.WriteMessage(BinaryMessage, msg); err != nil { client.Close(); delete(clients, client) } }`.
`writeOk c` says whether the write to peer `c` succeeds. Returns the
surviving registry and the successful writes; a Go map iterates in an
unspecified order, which the list order determinizes. -/
def broadcast (clients : List Conn) (msg : List Nat) (writeOk : Conn → Bool) :
    List Conn × List (Conn × List Nat) :=
  match clients with
  | [] => ([], [])
  | c :: rest =>
      let r := broadcast rest msg writeOk
      if writeOk c then (c :: r.1, (c, msg) :: r.2) else (r.1, r.2)

/-- One iteration of the per-connection read loop of `HandleConnections`
for the peer `ws`: a read error deletes `ws` from `clients` and breaks; a
payload whose length is not a multiple of 8 is logged and skipped
(`continue`); otherwise the decoded vectors replace `a.drawnPixels` and
the raw message is relayed through `broadcast`. No path exits the
process. -/
def HandleConnectionsLoopBody (drawnPixels : List Point) (clients : List Conn)
    (ws : Conn) (read : ReadResult) (writeOk : Conn → Bool) : HostStepResult :=
  match read with
  | .fail =>
      { drawnPixels := drawnPixels, clients := clients.filter (fun c => c ≠ ws),
        writes := [], terminated := true, exitsProcess := false }
  | .ok msg =>
      match decode msg with
      | none =>
          { drawnPixels := drawnPixels, clients := clients, writes := [],
            terminated := false, exitsProcess := false }
      | some ps =>
          let r := broadcast clients msg writeOk
          { drawnPixels := ps, clients := r.1, writes := r.2,
            terminated := false, exitsProcess := false }

/-- State after one iteration of the receive loop in `JoinWsServer`. -/
structure JoinStepResult where
  drawnPixels : List Point
  terminated : Bool
  markedDisconnected : Bool
  exitsProcess : Bool
deriving DecidableEq, Repr

/-- One iteration of the receive loop of `JoinWsServer`. On a read error
the code only prints — there is no `break`, `return` or reconnect
handling — so execution falls through into the decode with the nil (empty)
message; nothing ever marks the client disconnected, and no path exits the
process. -/
def JoinWsServerLoopBody (drawnPixels : List Point) (read : ReadResult) :
    JoinStepResult :=
  let msg := match read with | .ok m => m | .fail => []
  match decode msg with
  | none =>
      { drawnPixels := drawnPixels, terminated := false,
        markedDisconnected := false, exitsProcess := false }
  | some ps =>
      { drawnPixels := ps, terminated := false,
        markedDisconnected := false, exitsProcess := false }

/-- The hard-coded dial target of `JoinWsServer`. -/
def wsURL : String := "ws://192.168.1.113:8000/ws"

/-- Display label recorded from a live connection
(`c.UnderlyingConn().RemoteAddr().String()`). -/
def remoteAddr (c : Conn) : String := toString c

/-- State after the connect phase of `JoinWsServer`. `dialed` lists the
URL of every dial attempt in order, `sleepsMs` the sleeps taken, and
`muHeldAtReturn` whether the function returns while still holding the
exclusive lock `a.mu`. -/
structure ConnectResult where
  ws : Option Conn
  wsAddr : Option String
  dialed : List String
  sleepsMs : List Nat
  muHeldAtReturn : Bool
  exitsProcess : Bool
deriving DecidableEq, Repr

/-- The connect phase of `JoinWsServer`: a `for i := 0; i < 3; i++` loop
dials the fixed `wsURL` and sleeps 300 ms each iteration, overwriting `c`
every time (the fold), so `c` ends as the third attempt's result. Then
`a.mu.Lock()`; if `c != nil` the connection and its remote address are
stored and the lock released; otherwise the code returns WITHOUT releasing
`a.mu` — that early return path never reaches `a.mu.Unlock()`. -/
def JoinWsServerConnect (dial : Nat → Option Conn) : ConnectResult :=
  let c := (List.range 3).foldl (fun _ i => dial i) none
  match c with
  | some conn =>
      { ws := some conn, wsAddr := some (remoteAddr conn),
        dialed := [wsURL, wsURL, wsURL], sleepsMs := [300, 300, 300],
        muHeldAtReturn := false, exitsProcess := false }
  | none =>
      { ws := none, wsAddr := none,
        dialed := [wsURL, wsURL, wsURL], sleepsMs := [300, 300, 300],
        muHeldAtReturn := true, exitsProcess := false }

/-- Outcome of `upgrader.Upgrade` at the top of `HandleConnections`. -/
inductive UpgradeResult
  | ok (c : Conn)
  | fail
deriving DecidableEq, Repr

/-- Entry of `HandleConnections`: `ws, err := upgrader.Upgrade(w, r, nil);
if err != nil { log.Fatal(err) }`. `log.Fatal` calls `os.Exit(1)`, so a
failed upgrade exits the whole process; a successful upgrade proceeds. -/
def HandleConnectionsUpgradeExits : UpgradeResult → Bool
  | .fail => true
  | .ok _ => false

/-- A `context.Context` as far as `Shutdown` can observe it: the timeout
it was created with and whether it has already been cancelled. -/
structure Ctx where
  timeoutMs : Nat
  cancelled : Bool
deriving DecidableEq, Repr

/-- `context.WithTimeout(context.Background(), d)` yields a context with
deadline `d` from now, not yet cancelled. -/
def withTimeout (ms : Nat) : Ctx := { timeoutMs := ms, cancelled := false }

/-- Calling the cancel function of a context. -/
def cancelCtx (c : Ctx) : Ctx := { c with cancelled := true }

/-- The context `OnMPressed` hands to `a.server.Shutdown`:
`ctx, cancel := context.WithTimeout(context.Background(), 1*time.Second)`
immediately followed by `cancel()` — the cancel runs BEFORE the
`a.server.Shutdown(ctx)` call, not deferred. -/
def OnMPressedShutdownCtx : Ctx := cancelCtx (withTimeout 1000)

/-- The step size of the `AppStateDrawing` branch of `OnMousePress`:
`step := a.drawRadius * 0.5; if step < 1 { step = 1 }`. -/
def interpStep (drawRadius : ℚ) : ℚ :=
  if drawRadius * (1 / 2) < 1 then 1 else drawRadius * (1 / 2)

/-- The step count of the same branch:
`steps := int(dist / step); if steps < 1 { steps = 1 }` — the float-to-int
conversion truncates toward zero, which for the nonnegative quotient is
the floor. -/
def interpSteps (drawRadius dist : ℚ) : ℕ :=
  let q := (⌊dist / interpStep drawRadius⌋).toNat
  if q < 1 then 1 else q

/-- The interpolation loop of `OnMousePress` in `AppStateDrawing`, read in
exact arithmetic: from the previous pointer position `last`
(`a.lastDrawnPixel`) and the current one `cur`, with `dist` the value of
`rl.Vector2Length` on their difference (passed explicitly together with
its defining property, since square roots are not rational), the loop
`for i := 1; i <= steps; i++` appends `last + (cur - last) * (i / steps)`
for each `i`. -/
def interpolate (last cur : ℚ × ℚ) (drawRadius dist : ℚ) : List (ℚ × ℚ) :=
  let dx := cur.1 - last.1
  let dy := cur.2 - last.2
  let steps := interpSteps drawRadius dist
  (List.range steps).map fun i : ℕ =>
    (last.1 + dx * (((i : ℚ) + 1) / (steps : ℚ)),
     last.2 + dy * (((i : ℚ) + 1) / (steps : ℚ)))

theorem interpStep_one_le (drawRadius : ℚ) : 1 ≤ interpStep drawRadius := by
  unfold interpStep
  split <;> linarith

theorem interpStep_pos (drawRadius : ℚ) : 0 < interpStep drawRadius :=
  lt_of_lt_of_le one_pos (interpStep_one_le drawRadius)

theorem interpSteps_one_le (drawRadius dist : ℚ) : 1 ≤ interpSteps drawRadius dist := by
  unfold interpSteps
  dsimp only
  split <;> omega

theorem interpolate_length (last cur : ℚ × ℚ) (drawRadius dist : ℚ) :
    (interpolate last cur drawRadius dist).length = interpSteps drawRadius dist := by
  unfold interpolate
  simp only [List.length_map, List.length_range]

theorem interpolate_getElem (last cur : ℚ × ℚ) (drawRadius dist : ℚ) (i : ℕ)
    (h : i < interpSteps drawRadius dist) :
    (interpolate last cur drawRadius dist)[i]? =
      some (last.1 + (cur.1 - last.1) * (((i : ℚ) + 1) / (interpSteps drawRadius dist : ℚ)),
            last.2 + (cur.2 - last.2) * (((i : ℚ) + 1) / (interpSteps drawRadius dist : ℚ))) := by
  unfold interpolate
  simp only [List.getElem?_map, List.getElem?_range h, Option.map_some']

/-- When at least two points are emitted, the uniform segment fraction
`dist / steps` stays below `1.5 ×` the step size: `steps` is the floor of
`dist / step`, so `dist < (steps + 1) · step ≤ 1.5 · steps · step`. -/
theorem interpSteps_spacing_bound (drawRadius dist : ℚ) (hdist : 0 ≤ dist)
    (h2 : 2 ≤ interpSteps drawRadius dist) :
    dist / (interpSteps drawRadius dist : ℚ) ≤ (3 / 2) * interpStep drawRadius := by
  have hstep1 := interpStep_one_le drawRadius
  have hstep0 := interpStep_pos drawRadius
  unfold interpSteps at *
  set q := (⌊dist / interpStep drawRadius⌋).toNat with hq
  have hq2 : 2 ≤ q := by
    by_cases hlt : q < 1
    · simp only [if_pos hlt] at h2; omega
    · simpa only [if_neg hlt] using h2
  rw [if_neg (by omega : ¬ q < 1)] at *
  have hfl0 : 0 ≤ ⌊dist / interpStep drawRadius⌋ :=
    Int.floor_nonneg.mpr (div_nonneg hdist hstep0.le)
  have hcast : ((q : ℚ)) = ((⌊dist / interpStep drawRadius⌋ : ℤ) : ℚ) := by
    rw [hq]
    exact_mod_cast congrArg (fun z : ℤ => (z : ℚ)) (Int.toNat_of_nonneg hfl0)
  have hlt1 : dist / interpStep drawRadius < (q : ℚ) + 1 := by
    rw [hcast]
    exact_mod_cast Int.lt_floor_add_one (dist / interpStep drawRadius)
  have hdlt : dist < ((q : ℚ) + 1) * interpStep drawRadius := (div_lt_iff₀ hstep0).mp hlt1
  have hq2Q : (2 : ℚ) ≤ (q : ℚ) := by exact_mod_cast hq2
  have hqpos : (0 : ℚ) < (q : ℚ) := by linarith
  rw [div_le_iff₀ hqpos]
  nlinarith [mul_le_mul_of_nonneg_right
    (by linarith : (q : ℚ) + 1 ≤ (3 / 2) * (q : ℚ)) hstep0.le]

theorem broadcast_eq (clients : List Conn) (msg : List Nat) (writeOk : Conn → Bool) :
    broadcast clients msg writeOk =
      (clients.filter writeOk, (clients.filter writeOk).map (fun c => (c, msg))) := by
  induction clients with
  | nil => rfl
  | cons c rest ih =>
      by_cases hc : writeOk c <;> simp [broadcast, ih, List.filter_cons, hc]

/-- Claim C3 counterexample: previous position `(0, 0)`, current position
`(5/2, 0)`, radius `0` (so the claimed spacing bound is
`max(1, 0×0.5) = 1`), distance `5/2`. The loop emits the two points
`(5/4, 0)` and `(5/2, 0)`, whose separation `5/4` exceeds the claimed
bound: `steps` is the FLOOR of `dist / step`, so the uniform spacing
`dist / steps` can overshoot `step`. -/
theorem interpolate_spacing_exceeds_step_cex :
    interpolate (0, 0) ((5 : ℚ) / 2, 0) 0 ((5 : ℚ) / 2) =
      [((5 : ℚ) / 4, 0), ((5 : ℚ) / 2, 0)] ∧
    (0 : ℚ) ≤ 0 ∧ (0 : ℚ) ≤ (5 : ℚ) / 2 ∧
    ((5 : ℚ) / 2) ^ 2 = ((5 : ℚ) / 2 - 0) ^ 2 + ((0 : ℚ) - 0) ^ 2 ∧
    ¬ (((5 : ℚ) / 2 - (5 : ℚ) / 4) ^ 2 + ((0 : ℚ) - 0) ^ 2 ≤ interpStep 0 ^ 2) := by
  refine ⟨?_, by norm_num, by norm_num, by norm_num, ?_⟩
  · have h2 : Int.toNat 2 = 2 := rfl
    unfold interpolate interpSteps interpStep
    norm_num [h2, List.range_succ]
  · unfold interpStep
    norm_num

/-- Claim C3 (amended): for previous position `P0`, current position `P1`
and radius `R ≥ 0`, with `dist` the Euclidean norm of `P1 − P0`, the
interpolation emits at least one point, the final emitted point equals
`P1` exactly, when `P0 = P1` exactly one point (at `P1`) is emitted, and
every pair of consecutive emitted points is at most
`1.5 × max(1, R×0.5)` apart — not `max(1, R×0.5)` as originally claimed,
since `steps` is the floor, not the ceiling, of `dist / step`. -/
theorem interpolate_props (last cur : ℚ × ℚ) (drawRadius dist : ℚ)
    (_hr : 0 ≤ drawRadius) (hdist : 0 ≤ dist)
    (hnorm : dist ^ 2 = (cur.1 - last.1) ^ 2 + (cur.2 - last.2) ^ 2) :
    1 ≤ (interpolate last cur drawRadius dist).length ∧
    (interpolate last cur drawRadius dist).getLast? = some cur ∧
    (last = cur → interpolate last cur drawRadius dist = [cur]) ∧
    ∀ i a b, (interpolate last cur drawRadius dist)[i]? = some a →
      (interpolate last cur drawRadius dist)[i + 1]? = some b →
      (b.1 - a.1) ^ 2 + (b.2 - a.2) ^ 2 ≤ ((3 / 2) * interpStep drawRadius) ^ 2 := by
  have hsteps1 := interpSteps_one_le drawRadius dist
  have hlen := interpolate_length last cur drawRadius dist
  have hnQ : (0 : ℚ) < (interpSteps drawRadius dist : ℚ) := by
    exact_mod_cast Nat.lt_of_lt_of_le Nat.zero_lt_one hsteps1
  refine ⟨by rw [hlen]; exact hsteps1, ?_, ?_, ?_⟩
  · rw [List.getLast?_eq_getElem?, hlen,
      interpolate_getElem last cur drawRadius dist (interpSteps drawRadius dist - 1)
        (by omega)]
    have hc : ((interpSteps drawRadius dist - 1 : ℕ) : ℚ) + 1 =
        (interpSteps drawRadius dist : ℚ) := by
      push_cast [Nat.cast_sub hsteps1]
      ring
    rw [hc, div_self (ne_of_gt hnQ), mul_one, mul_one,
      show last.1 + (cur.1 - last.1) = cur.1 from by ring,
      show last.2 + (cur.2 - last.2) = cur.2 from by ring, Prod.mk.eta]
  · intro heq
    have hdx : cur.1 - last.1 = 0 := by rw [heq]; ring
    have hdy : cur.2 - last.2 = 0 := by rw [heq]; ring
    have hd0 : dist = 0 := by
      have h0 : dist ^ 2 = 0 := by rw [hnorm, hdx, hdy]; ring
      exact pow_eq_zero_iff two_ne_zero |>.mp h0
    have hn1 : interpSteps drawRadius dist = 1 := by
      unfold interpSteps
      simp [hd0, zero_div]
    unfold interpolate
    rw [hn1, hdx, hdy]
    simp [Prod.mk.eta, heq]
  · intro i a b ha hb
    have hib : i + 1 < interpSteps drawRadius dist := by
      by_contra hc
      rw [List.getElem?_eq_none (by rw [hlen]; omega)] at hb
      exact Option.noConfusion hb
    have hia : i < interpSteps drawRadius dist := by omega
    rw [interpolate_getElem last cur drawRadius dist i hia] at ha
    rw [interpolate_getElem last cur drawRadius dist (i + 1) hib] at hb
    have ha' := Option.some.inj ha
    have hb' := Option.some.inj hb
    have hb1 : b.1 - a.1 = (cur.1 - last.1) / (interpSteps drawRadius dist : ℚ) := by
      rw [← ha', ← hb']
      push_cast
      field_simp
      ring
    have hb2 : b.2 - a.2 = (cur.2 - last.2) / (interpSteps drawRadius dist : ℚ) := by
      rw [← ha', ← hb']
      push_cast
      field_simp
      ring
    have h2n : 2 ≤ interpSteps drawRadius dist := by omega
    have hbound := interpSteps_spacing_bound drawRadius dist hdist h2n
    have hdivnn : 0 ≤ dist / (interpSteps drawRadius dist : ℚ) :=
      div_nonneg hdist hnQ.le
    calc (b.1 - a.1) ^ 2 + (b.2 - a.2) ^ 2
        = dist ^ 2 / (interpSteps drawRadius dist : ℚ) ^ 2 := by
          rw [hb1, hb2, div_pow, div_pow, div_add_div_same, ← hnorm]
      _ = (dist / (interpSteps drawRadius dist : ℚ)) ^ 2 := by rw [div_pow]
      _ ≤ ((3 / 2) * interpStep drawRadius) ^ 2 := pow_le_pow_left₀ hdivnn hbound 2

/-- Concrete check of `interpolate_props` on a 3-4-5 configuration:
previous position `(0, 0)`, current `(3, 4)`, radius 2, distance 5. -/
theorem interpolate_props_witness :
    ((0 : ℚ) ≤ 2 ∧ (0 : ℚ) ≤ 5 ∧
      (5 : ℚ) ^ 2 = (((3 : ℚ), (4 : ℚ)).1 - ((0 : ℚ), (0 : ℚ)).1) ^ 2 +
        (((3 : ℚ), (4 : ℚ)).2 - ((0 : ℚ), (0 : ℚ)).2) ^ 2) ∧
    (1 ≤ (interpolate (0, 0) (3, 4) 2 5).length ∧
      (interpolate (0, 0) (3, 4) 2 5).getLast? = some (3, 4) ∧
      ((0, 0) = ((3 : ℚ), (4 : ℚ)) → interpolate (0, 0) (3, 4) 2 5 = [(3, 4)]) ∧
      ∀ i a b, (interpolate (0, 0) (3, 4) 2 5)[i]? = some a →
        (interpolate (0, 0) (3, 4) 2 5)[i + 1]? = some b →
        (b.1 - a.1) ^ 2 + (b.2 - a.2) ^ 2 ≤ ((3 / 2) * interpStep 2) ^ 2) :=
  ⟨⟨by norm_num, by norm_num, by norm_num⟩,
    interpolate_props (0, 0) (3, 4) 2 5 (by norm_num) (by norm_num) (by norm_num)⟩

/-- Claim C2 counterexample: with the sending peer 7 as the only
registered peer (a two-party session has exactly the two participant
connections in `clients`; here the registry holds just the sender) and all
writes succeeding, the relay loop still performs a forward write — it
echoes the raw bytes back to the sender, because the `for client := range
clients` loop never excludes the sender. The claim predicts zero forward
writes here. -/
theorem host_forwards_to_sender_cex :
    (HandleConnectionsLoopBody [] [7] 7 (ReadResult.ok (encode [⟨1, 2⟩]))
        (fun _ => true)).writes = [(7, encode [⟨1, 2⟩])] ∧
    (HandleConnectionsLoopBody [] [7] 7 (ReadResult.ok (encode [⟨1, 2⟩]))
        (fun _ => true)).writes ≠ [] := by
  constructor <;> decide

/-- Claim C2 (amended): for every inbound message on the host whose decode
succeeds, the host replaces its shared drawing buffer with the decoded
points and forwards the original raw message bytes, bit-for-bit
unmodified, to every registered peer INCLUDING the sending peer (peers
whose write fails are dropped from the registry); in a two-party session
the bytes are echoed back to the sender, so a forward write does occur. -/
theorem host_replaces_and_forwards_all (buf ps : List Point) (clients : List Conn)
    (ws : Conn) (msg : List Nat) (writeOk : Conn → Bool)
    (h : decode msg = some ps) :
    HandleConnectionsLoopBody buf clients ws (ReadResult.ok msg) writeOk =
      { drawnPixels := ps, clients := clients.filter writeOk,
        writes := (clients.filter writeOk).map (fun c => (c, msg)),
        terminated := false, exitsProcess := false } := by
  simp [HandleConnectionsLoopBody, h, broadcast_eq]

/-- Concrete check of `host_replaces_and_forwards_all`: a one-point
message from sender 7 in a registry holding peers 7 and 9. -/
theorem host_replaces_and_forwards_all_witness :
    decode (encode [Point.mk 1 2]) = some [Point.mk 1 2] ∧
    HandleConnectionsLoopBody [] [7, 9] 7 (ReadResult.ok (encode [Point.mk 1 2]))
        (fun _ => true) =
      { drawnPixels := [Point.mk 1 2],
        clients := ([7, 9] : List Conn).filter (fun _ => true),
        writes := (([7, 9] : List Conn).filter (fun _ => true)).map
          (fun c => (c, encode [Point.mk 1 2])),
        terminated := false, exitsProcess := false } :=
  ⟨by decide,
    host_replaces_and_forwards_all [] [Point.mk 1 2] [7, 9] 7
      (encode [Point.mk 1 2]) (fun _ => true) (by decide)⟩

/-- Claim C4: the joiner receive loop, evaluated at a read failure with a
non-empty local buffer. The code does not terminate the loop and does not
mark the client disconnected; instead it treats the nil payload as a
decodable empty message and replaces the buffer with the empty sequence.
This contradicts the claim, whose behavior the host-side loop (which does
`break` on a read error) shows to be the intent. -/
theorem join_read_failure_continues :
    JoinWsServerLoopBody [Point.mk 1 2] ReadResult.fail =
      { drawnPixels := [], terminated := false,
        markedDisconnected := false, exitsProcess := false } := by
  decide

/-- Claim C5: every buffer whose length is not a multiple of 8 fails to
decode, and on both host and joiner such a message is discarded with
nothing else changed — the loop continues (connection stays open), the
registry keeps all peers, and the drawing buffer is untouched. -/
theorem decode_rejects_unaligned_and_discards (b : List Nat)
    (h : b.length % 8 ≠ 0) (buf : List Point) (clients : List Conn) (ws : Conn)
    (writeOk : Conn → Bool) :
    decode b = none ∧
    HandleConnectionsLoopBody buf clients ws (ReadResult.ok b) writeOk =
      { drawnPixels := buf, clients := clients, writes := [],
        terminated := false, exitsProcess := false } ∧
    JoinWsServerLoopBody buf (ReadResult.ok b) =
      { drawnPixels := buf, terminated := false,
        markedDisconnected := false, exitsProcess := false } := by
  have hd : decode b = none := by simp [decode, h]
  exact ⟨hd, by simp [HandleConnectionsLoopBody, hd], by simp [JoinWsServerLoopBody, hd]⟩

/-- Concrete check of `decode_rejects_unaligned_and_discards` on a 3-byte
buffer. -/
theorem decode_rejects_unaligned_and_discards_witness :
    ([0, 1, 2] : List Nat).length % 8 ≠ 0 ∧
    (decode [0, 1, 2] = none ∧
      HandleConnectionsLoopBody [Point.mk 3 4] [5, 6] 5 (ReadResult.ok [0, 1, 2])
          (fun _ => true) =
        { drawnPixels := [Point.mk 3 4], clients := [5, 6], writes := [],
          terminated := false, exitsProcess := false } ∧
      JoinWsServerLoopBody [Point.mk 3 4] (ReadResult.ok [0, 1, 2]) =
        { drawnPixels := [Point.mk 3 4], terminated := false,
          markedDisconnected := false, exitsProcess := false }) :=
  ⟨by decide,
    decode_rejects_unaligned_and_discards [0, 1, 2] (by decide) [Point.mk 3 4]
      [5, 6] 5 (fun _ => true)⟩

/-- Claim C6: `JoinWsServerConnect` evaluated with every dial attempt
failing. It dials exactly 3 times with fixed 300 ms sleeps, does not retry
further, ends with no active connection (`ws = none`, disconnected) and
does not exit the process — but it returns while still holding the
exclusive lock `a.mu` (`muHeldAtReturn = true`, the early `return` skips
`a.mu.Unlock()`), so every later buffer operation blocks forever and the
local drawing buffer is NOT usable offline, contradicting the last part of
the claim. -/
theorem join_connect_all_fail_state :
    JoinWsServerConnect (fun _ => none) =
      { ws := none, wsAddr := none, dialed := [wsURL, wsURL, wsURL],
        sleepsMs := [300, 300, 300], muHeldAtReturn := true,
        exitsProcess := false } := by
  rfl

/-- Claim C7: a read failure on peer `ws` removes exactly that peer from
the registry and terminates only its own handler loop; and on a relayed
message, every peer whose forward write fails is removed from the registry
immediately while each remaining peer still receives the raw bytes — no
handle survives a failed read or write against it. -/
theorem peer_removed_on_failure (buf ps : List Point) (clients : List Conn)
    (ws : Conn) (msg : List Nat) (writeOk : Conn → Bool)
    (h : decode msg = some ps) :
    HandleConnectionsLoopBody buf clients ws ReadResult.fail writeOk =
      { drawnPixels := buf, clients := clients.filter (fun c => c ≠ ws),
        writes := [], terminated := true, exitsProcess := false } ∧
    (HandleConnectionsLoopBody buf clients ws (ReadResult.ok msg) writeOk).clients =
      clients.filter writeOk ∧
    (HandleConnectionsLoopBody buf clients ws (ReadResult.ok msg) writeOk).writes =
      (clients.filter writeOk).map (fun c => (c, msg)) := by
  refine ⟨rfl, ?_, ?_⟩ <;> simp [HandleConnectionsLoopBody, h, broadcast_eq]

/-- Concrete check of `peer_removed_on_failure`: registry `[1, 2, 3]`, the
write to peer 2 fails, peers 1 and 3 still receive the bytes. -/
theorem peer_removed_on_failure_witness :
    decode (encode [Point.mk 1 2]) = some [Point.mk 1 2] ∧
    (HandleConnectionsLoopBody [] [1, 2, 3] 1 ReadResult.fail (fun c => c ≠ 2) =
      { drawnPixels := [], clients := ([1, 2, 3] : List Conn).filter (fun c => c ≠ 1),
        writes := [], terminated := true, exitsProcess := false } ∧
    (HandleConnectionsLoopBody [] [1, 2, 3] 1
        (ReadResult.ok (encode [Point.mk 1 2])) (fun c => c ≠ 2)).clients =
      ([1, 2, 3] : List Conn).filter (fun c => c ≠ 2) ∧
    (HandleConnectionsLoopBody [] [1, 2, 3] 1
        (ReadResult.ok (encode [Point.mk 1 2])) (fun c => c ≠ 2)).writes =
      (([1, 2, 3] : List Conn).filter (fun c => c ≠ 2)).map
        (fun c => (c, encode [Point.mk 1 2]))) :=
  ⟨by decide,
    peer_removed_on_failure [] [Point.mk 1 2] [1, 2, 3] 1
      (encode [Point.mk 1 2]) (fun c => c ≠ 2) (by decide)⟩

/-- Claim C8 counterexample: a failed upgrade of an inbound connection in
`HandleConnections` runs `log.Fatal(err)`, which exits the process — the
claim says no network failure, the failed upgrade included, ever
terminates the process. -/
theorem upgrade_failure_exits_cex :
    HandleConnectionsUpgradeExits UpgradeResult.fail = true := by
  rfl

/-- Claim C8 (amended): every network failure in the subsystem other than
a failed upgrade — failed read, failed write, failed decode, failed dial —
is confined to logging and degrading that peer or session, never exiting
the process; a failed upgrade of an inbound connection, however,
terminates the process through a fatal log call. -/
theorem failures_nonfatal_except_upgrade :
    (∀ buf clients ws rd writeOk,
      (HandleConnectionsLoopBody buf clients ws rd writeOk).exitsProcess = false) ∧
    (∀ buf rd, (JoinWsServerLoopBody buf rd).exitsProcess = false) ∧
    (∀ dial, (JoinWsServerConnect dial).exitsProcess = false) ∧
    HandleConnectionsUpgradeExits UpgradeResult.fail = true := by
  refine ⟨fun buf clients ws rd writeOk => ?_, fun buf rd => ?_, fun dial => ?_, rfl⟩
  · cases rd with
    | fail => rfl
    | ok msg => cases h : decode msg <;> simp [HandleConnectionsLoopBody, h]
  · cases rd with
    | fail => cases h : decode [] <;> simp [JoinWsServerLoopBody, h]
    | ok msg => cases h : decode msg <;> simp [JoinWsServerLoopBody, h]
  · cases h : (List.range 3).foldl (fun _ i => dial i) none <;>
      simp [JoinWsServerConnect, h]

/-- Claim C9: the context `OnMPressed` passes to `a.server.Shutdown` does
carry a deadline 1 second in the future, but it has ALREADY been cancelled
when the call is made — `cancel()` runs immediately after
`context.WithTimeout`, not deferred — so the shutdown gets no grace
period, contradicting the claim that the deadline has not been cancelled
at the time of the call. -/
theorem shutdown_ctx_precancelled :
    OnMPressedShutdownCtx = { timeoutMs := 1000, cancelled := true } := by
  rfl

/-- Claim C10: every run of the joiner connect phase dials exactly the
hard-coded URL `ws://192.168.1.113:8000/ws` on each of its 3 attempts, for
every possible dial outcome — the target address is a constant, not a
parameter, so no input can make the joiner reach any other host. -/
theorem join_dials_fixed_url :
    wsURL = "ws://192.168.1.113:8000/ws" ∧
    ∀ dial : Nat → Option Conn,
      (JoinWsServerConnect dial).dialed = [wsURL, wsURL, wsURL] := by
  refine ⟨rfl, fun dial => ?_⟩
  cases h : (List.range 3).foldl (fun _ i => dial i) none <;>
    simp [JoinWsServerConnect, h]

end PictoChat
